import Mathlib

/-!
# Verification of the cs2pov timeline / segment engine

Shallow embedding of the pure timeline computations of the `cs2pov`
repository, together with proofs of the stated properties.

Python machine floats are modelled as exact rationals (`ℚ`), ticks as
integers (`ℤ`), Python `None`-able fields as `Option`, and Python's
`int(x)` float-to-int conversion as truncation toward zero (`pyInt`).
Sources embedded:
- `src/cs2pov/preprocessor.py`: `compute_alive_segments`, `_merge_alive_segments`;
- `src/cs2pov/cli.py` (`postprocess_video`, lines 483-551): demo-duration
  resolution, startup-time calculation and the demo-to-video-time remap;
- `src/cs2pov/comms.py`: `compute_comms_segments`;
- `src/cs2pov/navigation.py`: `compute_goto_tick` and the seek-tick
  computation of `handle_death`.
-/

/-- `DeathEvent` from `preprocessor.py`: a player death event from the demo. -/
structure DeathEvent where
  tick : ℤ
  time_seconds : ℚ
  attacker_steamid : Option ℤ := none
  weapon : Option String := none
  headshot : Bool := false
deriving Repr, DecidableEq

/-- `RoundBoundary` from `preprocessor.py`: boundaries for a round in the demo. -/
structure RoundBoundary where
  round_num : ℤ
  prestart_tick : ℤ
  prestart_time : ℚ
  freeze_end_tick : Option ℤ := none
  freeze_end_time : Option ℚ := none
  end_tick : Option ℤ := none
  end_time : Option ℚ := none
deriving Repr, DecidableEq

/-- `AliveSegment` from `preprocessor.py`: a period when the player is alive
and gameplay should be shown. -/
structure AliveSegment where
  start_tick : ℤ
  end_tick : ℤ
  start_time : ℚ
  end_time : ℚ
  round_num : ℤ
  reason_ended : String
deriving Repr, DecidableEq

/-- Python's `int(x)` applied to a float: truncation toward zero.
A rational's denominator is positive, and `Int.tdiv` is T-division, so
`num.tdiv den` truncates the value toward zero. -/
def pyInt (q : ℚ) : ℤ :=
  q.num.tdiv (q.den : ℤ)

/-- The segment start tick of the per-round loop of
`compute_alive_segments` (`preprocessor.py` lines 540-547):
`freeze_end - buffer` when `freeze_end_tick is not None`, otherwise
`prestart + int(15.0 * tickrate) - buffer`; clamped to the demo start. -/
def segStartTick (tickrate buffer_before_round : ℚ) (r : RoundBoundary) : ℤ :=
  let buffer_before_ticks : ℤ := pyInt (buffer_before_round * tickrate)
  let raw : ℤ :=
    match r.freeze_end_tick with
    | some t => t - buffer_before_ticks
    | none => r.prestart_tick + pyInt (15 * tickrate) - buffer_before_ticks
  max 0 raw

/-- The lower end of the round span used for the death lookup
(`preprocessor.py` line 550).  The source tests truthiness
(`r.freeze_end_tick if r.freeze_end_tick else r.prestart_tick`), so a
freeze-end tick of `0` falls back to `prestart_tick`. -/
def roundSpanStart (r : RoundBoundary) : ℤ :=
  match r.freeze_end_tick with
  | some t => if t ≠ 0 then t else r.prestart_tick
  | none => r.prestart_tick

/-- The upper end of the round span used for the death lookup
(`preprocessor.py` lines 551-558): the round's `end_tick` when present
(`is None` test), else the next round's `prestart_tick`, else
`total_ticks`. -/
def roundSpanEnd (rounds : List RoundBoundary) (total_ticks : ℤ)
    (i : ℕ) (r : RoundBoundary) : ℤ :=
  match r.end_tick with
  | some t => t
  | none =>
    match rounds.get? (i + 1) with
    | some r2 => r2.prestart_tick
    | none => total_ticks

/-- The body of the per-round loop of `compute_alive_segments`
(`preprocessor.py` lines 539-588): for the `i`-th round `r` it produces
the round's alive segment, or `none` when the `end > start` guard drops
it.  The death lookup finds the first death in list order whose tick
lies in the round span, inclusive on both ends. -/
def roundSegment (deaths : List DeathEvent) (rounds : List RoundBoundary)
    (tickrate : ℚ) (total_ticks : ℤ)
    (buffer_before_round buffer_after_round_end : ℚ)
    (i : ℕ) (r : RoundBoundary) : Option AliveSegment :=
  let buffer_after_ticks : ℤ := pyInt (buffer_after_round_end * tickrate)
  let segment_start_tick : ℤ := segStartTick tickrate buffer_before_round r
  let round_start_tick : ℤ := roundSpanStart r
  let round_end_tick : ℤ := roundSpanEnd rounds total_ticks i r
  let death_in_round : Option DeathEvent :=
    deaths.find? fun d => decide (round_start_tick ≤ d.tick ∧ d.tick ≤ round_end_tick)
  let seg_end : ℤ × String :=
    match death_in_round with
    | some d => (d.tick, "death")
    | none =>
      match r.end_tick with
      | some t => (t + buffer_after_ticks, "round_end")
      | none => (round_end_tick, "demo_end")
  if segment_start_tick < seg_end.1 then
    some ⟨segment_start_tick, seg_end.1,
          (segment_start_tick : ℚ) / tickrate, (seg_end.1 : ℚ) / tickrate,
          r.round_num, seg_end.2⟩
  else
    none

/-- The full per-round emission loop of `compute_alive_segments`
(before merging). -/
def computeRoundSegments (deaths : List DeathEvent) (rounds : List RoundBoundary)
    (tickrate : ℚ) (total_ticks : ℤ)
    (buffer_before_round buffer_after_round_end : ℚ) : List AliveSegment :=
  rounds.enum.filterMap fun p =>
    roundSegment deaths rounds tickrate total_ticks
      buffer_before_round buffer_after_round_end p.1 p.2

/-- The record built when `_merge_alive_segments` fuses `current` into
`prev` and `current` extends past `prev`'s end (`preprocessor.py`
lines 611-618). -/
def fuseSegments (prev current : AliveSegment) : AliveSegment :=
  ⟨prev.start_tick, current.end_tick, prev.start_time, current.end_time,
   prev.round_num, current.reason_ended⟩

/-- The left-to-right sweep of `_merge_alive_segments`: `prev` is the
current last element of the `merged` list (mutated in place in the
source); it is emitted once a gap is found. -/
def mergeRun (prev : AliveSegment) : List AliveSegment → List AliveSegment
  | [] => [prev]
  | current :: rest =>
    if current.start_tick ≤ prev.end_tick then
      if prev.end_tick < current.end_tick then
        mergeRun (fuseSegments prev current) rest
      else
        mergeRun prev rest
    else
      prev :: mergeRun current rest

/-- The comparison key of the sort in `_merge_alive_segments`
(`sorted(segments, key=lambda s: s.start_tick)`; Python's sort is
stable, as is `List.mergeSort`). -/
def startLE (a b : AliveSegment) : Bool :=
  decide (a.start_tick ≤ b.start_tick)

/-- `_merge_alive_segments` from `preprocessor.py`: merge overlapping or
adjacent alive segments. -/
def merge_alive_segments (segments : List AliveSegment) : List AliveSegment :=
  match segments.mergeSort startLE with
  | [] => []
  | s :: rest => mergeRun s rest

/-- `compute_alive_segments` from `preprocessor.py`: compute alive
segments from deaths and round boundaries, then merge. -/
def compute_alive_segments (deaths : List DeathEvent) (rounds : List RoundBoundary)
    (tickrate : ℚ) (total_ticks : ℤ)
    (buffer_before_round buffer_after_round_end : ℚ) : List AliveSegment :=
  if rounds = [] then []
  else
    merge_alive_segments
      (computeRoundSegments deaths rounds tickrate total_ticks
        buffer_before_round buffer_after_round_end)

/-- Demo-duration source 1 (`cli.py` lines 486-491): the console-log
demo-end tick marker converted via tick rate.  Yields `0` when the
marker is absent or the tick rate is not positive. -/
def durationFromEndMarker (demo_end_tick : Option ℤ) (tickrate : ℚ) : ℚ :=
  match demo_end_tick with
  | some t => if 0 < tickrate then (t : ℚ) / tickrate else 0
  | none => 0

/-- Demo-duration source 2 (`cli.py` lines 493-497): the replay header's
declared total duration, usable only when positive. -/
def durationFromHeader (total_duration : ℚ) : ℚ :=
  if 0 < total_duration then total_duration else 0

/-- Demo-duration source 3 (`cli.py` lines 499-507): the last round that
has an `end_tick`, taking its `end_time` plus a 5-second buffer.  The
source reads `r.end_time` after testing `r.end_tick is not None`; every
constructed boundary sets the two together, and the claims about this
function assume that well-formedness. -/
def durationFromLastRound (rounds : List RoundBoundary) : ℚ :=
  match rounds.reverse.find? (fun r => r.end_tick.isSome) with
  | some r => r.end_time.getD 0 + 5
  | none => 0

/-- Demo-duration source 4 (`cli.py` lines 509-514): the last alive
segment's end time plus a 5-second buffer. -/
def durationFromLastSegment (alive_segments : List AliveSegment) : ℚ :=
  match alive_segments.getLast? with
  | some s => s.end_time + 5
  | none => 0

/-- The demo-duration resolution of `postprocess_video` (`cli.py`
lines 483-514): start from `0.0` and let each source overwrite it only
while it is still `0.0`. -/
def resolveDemoDuration (demo_end_tick : Option ℤ) (tickrate : ℚ)
    (total_duration : ℚ) (rounds : List RoundBoundary)
    (alive_segments : List AliveSegment) : ℚ :=
  let d : ℚ := 0
  let d : ℚ :=
    match demo_end_tick with
    | some t => if 0 < tickrate then (t : ℚ) / tickrate else d
    | none => d
  let d : ℚ := if d = 0 ∧ 0 < total_duration then total_duration else d
  let d : ℚ :=
    if d = 0 ∧ rounds ≠ [] then
      match rounds.reverse.find? (fun r => r.end_tick.isSome) with
      | some r => r.end_time.getD 0 + 5
      | none => d
    else d
  let d : ℚ :=
    if d = 0 ∧ alive_segments ≠ [] then
      match alive_segments.getLast? with
      | some s => s.end_time + 5
      | none => d
    else d
  d

/-- The startup-time calculation of `postprocess_video` (`cli.py`
lines 525-536): the override is used unchanged when present; otherwise
`video_duration - demo_duration` clamped to `0` when negative. -/
def startupTime (startup_time_override : Option ℚ)
    (video_duration demo_duration : ℚ) : ℚ :=
  match startup_time_override with
  | some s => s
  | none =>
    let s := video_duration - demo_duration
    if s < 0 then 0 else s

/-- The per-segment demo-time-to-video-time remap of `postprocess_video`
(`cli.py` lines 538-551): shift by the startup time, clamp into the
video bounds, keep only spans longer than half a second. -/
def toVideoTime (alive_segments : List AliveSegment)
    (startup_time video_duration : ℚ) : List (ℚ × ℚ) :=
  alive_segments.filterMap fun seg =>
    let video_start := startup_time + seg.start_time
    let video_end := startup_time + seg.end_time
    let video_start := max 0 video_start
    let video_end := min video_duration video_end
    if video_start + 1 / 2 < video_end then some (video_start, video_end)
    else none

/-- The pure alignment-and-remap slice of `postprocess_video` (`cli.py`
lines 483-551), entered when the timeline has alive segments: resolve
the demo duration; when no source resolves (`demo_duration == 0.0`) the
function returns early and the recording is kept untouched (modelled as
`none`); otherwise compute the startup time and remap the segments. -/
def postprocessPlan (demo_end_tick : Option ℤ) (tickrate : ℚ)
    (total_duration : ℚ) (rounds : List RoundBoundary)
    (alive_segments : List AliveSegment) (video_duration : ℚ)
    (startup_time_override : Option ℚ) : Option (List (ℚ × ℚ)) :=
  let demo_duration :=
    resolveDemoDuration demo_end_tick tickrate total_duration rounds alive_segments
  if demo_duration = 0 then none
  else
    some (toVideoTime alive_segments
      (startupTime startup_time_override video_duration demo_duration)
      video_duration)

/-- The loop body of `compute_comms_segments` (`comms.py` lines 31-38):
map one alive segment to comms-audio time, `none` when it is dropped
(`comms_end <= 0`). -/
def commsMapSeg (round1_freeze_end_time r1_sync_time : ℚ)
    (seg : AliveSegment) : Option (ℚ × ℚ) :=
  let comms_start := seg.start_time - round1_freeze_end_time + r1_sync_time
  let comms_end := seg.end_time - round1_freeze_end_time + r1_sync_time
  if comms_end ≤ 0 then none
  else some (max 0 comms_start, comms_end)

/-- `compute_comms_segments` from `comms.py`: map alive segments from
demo time to comms audio time. -/
def compute_comms_segments (alive_segments : List AliveSegment)
    (round1_freeze_end_time : ℚ) (r1_sync_time : ℚ) : List (ℚ × ℚ) :=
  alive_segments.filterMap (commsMapSeg round1_freeze_end_time r1_sync_time)

/-- `compute_goto_tick` from `navigation.py`: the adjusted tick for the
`demo_gototick` command. -/
def compute_goto_tick (target_start_tick : ℤ) (tick_offset : ℤ) : ℤ :=
  max 0 (target_start_tick - tick_offset)

/-- The seek-tick computation of `handle_death` (`navigation.py`
lines 100-118): after advancing the cursor, either there is no further
segment (`none`, session complete) or the seek targets the next
segment's `start_tick` adjusted through `compute_goto_tick`. -/
def handleDeathSeekTick (alive_segments : List AliveSegment)
    (current_segment_index : ℕ) (tick_offset : ℤ) : Option ℤ :=
  let next_index := current_segment_index + 1
  match alive_segments.get? next_index with
  | none => none
  | some seg => some (compute_goto_tick seg.start_tick tick_offset)

/-! ## Properties of the merge sweep -/

/-- The sweep never returns an empty list, and the head keeps the start
tick of the segment being accumulated. -/
theorem mergeRun_cons (rest : List AliveSegment) : ∀ (p : AliveSegment),
    ∃ h t, mergeRun p rest = h :: t ∧ h.start_tick = p.start_tick := by
  induction rest with
  | nil => exact fun p => ⟨p, [], rfl, rfl⟩
  | cons current rest ih =>
    intro p
    rw [mergeRun]
    by_cases h1 : current.start_tick ≤ p.end_tick
    · rw [if_pos h1]
      by_cases h2 : p.end_tick < current.end_tick
      · rw [if_pos h2]
        exact ih (fuseSegments p current)
      · rw [if_neg h2]
        exact ih p
    · rw [if_neg h1]
      exact ⟨p, mergeRun current rest, rfl, rfl⟩

/-- Consecutive output segments of the sweep are separated by a strict
gap in tick space. -/
theorem mergeRun_chain (rest : List AliveSegment) : ∀ (p : AliveSegment),
    List.Chain' (fun a b => a.end_tick < b.start_tick) (mergeRun p rest) := by
  induction rest with
  | nil => intro p; simp [mergeRun]
  | cons current rest ih =>
    intro p
    rw [mergeRun]
    by_cases h1 : current.start_tick ≤ p.end_tick
    · rw [if_pos h1]
      by_cases h2 : p.end_tick < current.end_tick
      · rw [if_pos h2]; exact ih (fuseSegments p current)
      · rw [if_neg h2]; exact ih p
    · rw [if_neg h1]
      refine List.chain'_cons'.mpr ⟨?_, ih current⟩
      intro y hy
      obtain ⟨h, t, he, hs⟩ := mergeRun_cons rest current
      rw [he] at hy
      simp only [List.head?_cons, Option.mem_def, Option.some.injEq] at hy
      subst hy
      rw [hs]
      exact lt_of_not_le h1

/-- Any property preserved by fusing (under the guards of the sweep)
holds for every output segment once it holds for all inputs. -/
theorem mergeRun_pred (P : AliveSegment → Prop)
    (hfuse : ∀ a b, P a → P b → b.start_tick ≤ a.end_tick →
      a.end_tick < b.end_tick → P (fuseSegments a b))
    (rest : List AliveSegment) : ∀ (p : AliveSegment), P p →
    (∀ s ∈ rest, P s) → ∀ out ∈ mergeRun p rest, P out := by
  induction rest with
  | nil =>
    intro p hp _ out hout
    rw [mergeRun] at hout
    simp only [List.mem_singleton] at hout
    exact hout ▸ hp
  | cons current rest ih =>
    intro p hp hrest out hout
    have hcur : P current := hrest current (List.mem_cons_self _ _)
    have hrest' : ∀ s ∈ rest, P s := fun s hs => hrest s (List.mem_cons_of_mem _ hs)
    rw [mergeRun] at hout
    by_cases h1 : current.start_tick ≤ p.end_tick
    · rw [if_pos h1] at hout
      by_cases h2 : p.end_tick < current.end_tick
      · rw [if_pos h2] at hout
        exact ih (fuseSegments p current) (hfuse p current hp hcur h1 h2) hrest' out hout
      · rw [if_neg h2] at hout
        exact ih p hp hrest' out hout
    · rw [if_neg h1] at hout
      rcases List.mem_cons.mp hout with h | h
      · exact h ▸ hp
      · exact ih current hcur hrest' out h

/-- Every output segment of the sweep starts no earlier than the
accumulated segment, provided the input tail is sorted and starts no
earlier. -/
theorem mergeRun_start_le (rest : List AliveSegment) : ∀ (p : AliveSegment),
    rest.Pairwise (fun a b => a.start_tick ≤ b.start_tick) →
    (∀ s ∈ rest, p.start_tick ≤ s.start_tick) →
    ∀ out ∈ mergeRun p rest, p.start_tick ≤ out.start_tick := by
  induction rest with
  | nil =>
    intro p _ _ out hout
    rw [mergeRun] at hout
    simp only [List.mem_singleton] at hout
    exact hout ▸ le_refl _
  | cons current rest ih =>
    intro p hsort hge out hout
    have hsort' : rest.Pairwise (fun a b => a.start_tick ≤ b.start_tick) :=
      (List.pairwise_cons.mp hsort).2
    have hcur_le : ∀ s ∈ rest, current.start_tick ≤ s.start_tick :=
      (List.pairwise_cons.mp hsort).1
    have hpc : p.start_tick ≤ current.start_tick :=
      hge current (List.mem_cons_self _ _)
    rw [mergeRun] at hout
    by_cases h1 : current.start_tick ≤ p.end_tick
    · rw [if_pos h1] at hout
      by_cases h2 : p.end_tick < current.end_tick
      · rw [if_pos h2] at hout
        exact ih (fuseSegments p current) hsort'
          (fun s hs => le_trans hpc (hcur_le s hs)) out hout
      · rw [if_neg h2] at hout
        exact ih p hsort' (fun s hs => le_trans hpc (hcur_le s hs)) out hout
    · rw [if_neg h1] at hout
      rcases List.mem_cons.mp hout with h | h
      · exact h ▸ le_refl _
      · exact le_trans hpc (ih current hsort' hcur_le out h)

/-- The sweep's output is sorted by `start_tick` when its input is. -/
theorem mergeRun_sorted (rest : List AliveSegment) : ∀ (p : AliveSegment),
    rest.Pairwise (fun a b => a.start_tick ≤ b.start_tick) →
    (∀ s ∈ rest, p.start_tick ≤ s.start_tick) →
    (mergeRun p rest).Pairwise (fun a b => a.start_tick ≤ b.start_tick) := by
  induction rest with
  | nil => intro p _ _; simp [mergeRun]
  | cons current rest ih =>
    intro p hsort hge
    have hsort' : rest.Pairwise (fun a b => a.start_tick ≤ b.start_tick) :=
      (List.pairwise_cons.mp hsort).2
    have hcur_le : ∀ s ∈ rest, current.start_tick ≤ s.start_tick :=
      (List.pairwise_cons.mp hsort).1
    have hpc : p.start_tick ≤ current.start_tick :=
      hge current (List.mem_cons_self _ _)
    rw [mergeRun]
    by_cases h1 : current.start_tick ≤ p.end_tick
    · rw [if_pos h1]
      by_cases h2 : p.end_tick < current.end_tick
      · rw [if_pos h2]
        exact ih (fuseSegments p current) hsort'
          (fun s hs => le_trans hpc (hcur_le s hs))
      · rw [if_neg h2]
        exact ih p hsort' (fun s hs => le_trans hpc (hcur_le s hs))
    · rw [if_neg h1]
      refine List.pairwise_cons.mpr ⟨?_, ih current hsort' hcur_le⟩
      intro out hout
      exact le_trans hpc (mergeRun_start_le rest current hsort' hcur_le out hout)

/-- On an input that is already gap-separated, the sweep changes
nothing. -/
theorem mergeRun_of_chain (rest : List AliveSegment) : ∀ (p : AliveSegment),
    List.Chain' (fun a b => a.end_tick < b.start_tick) (p :: rest) →
    mergeRun p rest = p :: rest := by
  induction rest with
  | nil => intro p _; rw [mergeRun]
  | cons current rest ih =>
    intro p hchain
    have h1 : p.end_tick < current.start_tick := (List.chain'_cons.mp hchain).1
    rw [mergeRun, if_neg (not_le.mpr h1), ih current (List.chain'_cons.mp hchain).2]

/-- `startLE` is transitive. -/
theorem startLE_trans : ∀ (a b c : AliveSegment),
    startLE a b → startLE b c → startLE a c := by
  intro a b c hab hbc
  simp only [startLE, decide_eq_true_eq] at *
  exact le_trans hab hbc

/-- `startLE` is total. -/
theorem startLE_total : ∀ (a b : AliveSegment), startLE a b || startLE b a := by
  intro a b
  simp only [startLE, Bool.or_eq_true, decide_eq_true_eq]
  exact le_total _ _

/-- Every element of a merge's output satisfies any property that all
inputs satisfy and that fusing preserves. -/
theorem merge_mem_pred (P : AliveSegment → Prop)
    (hfuse : ∀ a b, P a → P b → b.start_tick ≤ a.end_tick →
      a.end_tick < b.end_tick → P (fuseSegments a b))
    (l : List AliveSegment) (hl : ∀ s ∈ l, P s) :
    ∀ out ∈ merge_alive_segments l, P out := by
  unfold merge_alive_segments
  cases h : l.mergeSort startLE with
  | nil => simp
  | cons s rest =>
    have hmem : ∀ x ∈ s :: rest, P x := by
      intro x hx
      exact hl x (List.mem_mergeSort.mp (h ▸ hx))
    exact mergeRun_pred P hfuse rest s (hmem s (List.mem_cons_self _ _))
      (fun x hx => hmem x (List.mem_cons_of_mem _ hx))

/-- Consecutive segments of a merge's output are separated by a strict
gap in tick space. -/
theorem merge_chain (l : List AliveSegment) :
    List.Chain' (fun a b => a.end_tick < b.start_tick) (merge_alive_segments l) := by
  unfold merge_alive_segments
  cases h : l.mergeSort startLE with
  | nil => simp
  | cons s rest => exact mergeRun_chain rest s

/-- A merge's output is sorted by `start_tick`. -/
theorem merge_sorted (l : List AliveSegment) :
    (merge_alive_segments l).Pairwise (fun a b => a.start_tick ≤ b.start_tick) := by
  unfold merge_alive_segments
  cases h : l.mergeSort startLE with
  | nil => simp
  | cons s rest =>
    have hp : (s :: rest).Pairwise (fun a b => startLE a b) :=
      h ▸ List.sorted_mergeSort startLE_trans startLE_total l
    have hp' : (s :: rest).Pairwise (fun a b => a.start_tick ≤ b.start_tick) :=
      hp.imp (fun hab => by simpa [startLE] using hab)
    exact mergeRun_sorted rest s (List.pairwise_cons.mp hp').2
      (List.pairwise_cons.mp hp').1

/-- On a list of well-formed segments (strict tick spans), a gap chain
upgrades to the pairwise statement: any earlier segment ends strictly
before any later one starts. -/
theorem chain_gap_pairwise : ∀ (l : List AliveSegment),
    (∀ s ∈ l, s.start_tick < s.end_tick) →
    List.Chain' (fun a b => a.end_tick < b.start_tick) l →
    l.Pairwise (fun a b => a.start_tick < b.start_tick ∧ a.end_tick < b.start_tick) := by
  intro l
  induction l with
  | nil => intro _ _; exact List.Pairwise.nil
  | cons a t ih =>
    intro hwf hchain
    have hwf' : ∀ s ∈ t, s.start_tick < s.end_tick :=
      fun s hs => hwf s (List.mem_cons_of_mem _ hs)
    have hpt : t.Pairwise (fun a b => a.start_tick < b.start_tick ∧ a.end_tick < b.start_tick) :=
      ih hwf' hchain.tail
    refine List.pairwise_cons.mpr ⟨?_, hpt⟩
    intro b hb
    cases t with
    | nil => cases hb
    | cons hd tl =>
      have hahd : a.end_tick < hd.start_tick := (List.chain'_cons.mp hchain).1
      have ha : a.start_tick < a.end_tick := hwf a (List.mem_cons_self _ _)
      rcases List.mem_cons.mp hb with rfl | hb'
      · exact ⟨lt_trans ha hahd, hahd⟩
      · have hhd : hd.start_tick < hd.end_tick := hwf' hd (List.mem_cons_self _ _)
        have hhb : hd.end_tick < b.start_tick ∧ hd.start_tick < b.start_tick := by
          have := (List.pairwise_cons.mp hpt).1 b hb'
          exact ⟨this.2, this.1⟩
        have hab : a.end_tick < b.start_tick :=
          lt_trans hahd (lt_trans hhd hhb.1)
        exact ⟨lt_trans ha hab, hab⟩

/-- Well-formedness of an alive segment relative to a tick rate: the
tick span is strictly positive and both times are the ticks divided by
the tick rate. -/
def SegTimesWf (tickrate : ℚ) (s : AliveSegment) : Prop :=
  s.start_tick < s.end_tick ∧
  s.start_time = (s.start_tick : ℚ) / tickrate ∧
  s.end_time = (s.end_tick : ℚ) / tickrate

/-- The final emission guard of the per-round loop only ever emits a
well-formed segment. -/
theorem emit_wf {tr : ℚ} {start rn : ℤ} {x : ℤ × String} {s : AliveSegment}
    (h : (if start < x.1 then
        some (⟨start, x.1, (start : ℚ) / tr, (x.1 : ℚ) / tr, rn, x.2⟩ : AliveSegment)
      else none) = some s) :
    SegTimesWf tr s := by
  split at h
  · rename_i hlt
    obtain rfl := Option.some.inj h
    exact ⟨hlt, rfl, rfl⟩
  · cases h

/-- Any segment emitted by the per-round loop is well-formed. -/
theorem roundSegment_wf {deaths : List DeathEvent} {rounds : List RoundBoundary}
    {tickrate : ℚ} {total_ticks : ℤ} {bb ba : ℚ} {i : ℕ} {r : RoundBoundary}
    {s : AliveSegment}
    (h : roundSegment deaths rounds tickrate total_ticks bb ba i r = some s) :
    SegTimesWf tickrate s := by
  unfold roundSegment at h
  exact emit_wf h

/-- Every segment of the per-round emission list is well-formed. -/
theorem computeRoundSegments_wf (deaths : List DeathEvent)
    (rounds : List RoundBoundary) (tickrate : ℚ) (total_ticks : ℤ) (bb ba : ℚ) :
    ∀ s ∈ computeRoundSegments deaths rounds tickrate total_ticks bb ba,
      SegTimesWf tickrate s := by
  intro s hs
  unfold computeRoundSegments at hs
  obtain ⟨p, _, hp⟩ := List.mem_filterMap.mp hs
  exact roundSegment_wf hp

/-- Fusing two well-formed segments under the sweep's guards yields a
well-formed segment. -/
theorem fuse_wf {tickrate : ℚ} : ∀ a b : AliveSegment,
    SegTimesWf tickrate a → SegTimesWf tickrate b → b.start_tick ≤ a.end_tick →
    a.end_tick < b.end_tick → SegTimesWf tickrate (fuseSegments a b) := by
  intro a b ha hb _ hend
  exact ⟨lt_trans ha.1 hend, ha.2.1, hb.2.2⟩

/-- Every segment of `compute_alive_segments` is well-formed. -/
theorem compute_mem_wf (deaths : List DeathEvent) (rounds : List RoundBoundary)
    (tickrate : ℚ) (total_ticks : ℤ) (bb ba : ℚ) :
    ∀ s ∈ compute_alive_segments deaths rounds tickrate total_ticks bb ba,
      SegTimesWf tickrate s := by
  intro s hs
  unfold compute_alive_segments at hs
  split at hs
  · cases hs
  · exact merge_mem_pred (SegTimesWf tickrate) fuse_wf _
      (computeRoundSegments_wf deaths rounds tickrate total_ticks bb ba) s hs

/-- Evaluation helper: the emission loop over a single round. -/
theorem computeRoundSegments_singleton (deaths : List DeathEvent) (r : RoundBoundary)
    (tr : ℚ) (tt : ℤ) (bb ba : ℚ) :
    computeRoundSegments deaths [r] tr tt bb ba =
      (roundSegment deaths [r] tr tt bb ba 0 r).toList := by
  simp only [computeRoundSegments, List.enum, List.enumFrom, List.filterMap]
  rcases roundSegment deaths [r] tr tt bb ba 0 r with _ | s <;> rfl

/-! ## C1: the output of compute_alive_segments is sorted and disjoint -/

/-- C1: For every list of rounds and deaths (rounds non-empty, tick rate
positive), the output of `compute_alive_segments` is sorted ascending by
`start_tick`, and for any segment `a` appearing before segment `b`,
`a.end_tick < b.start_tick` (no two segments overlap or touch). -/
theorem alive_segments_sorted_disjoint (deaths : List DeathEvent)
    (rounds : List RoundBoundary) (tickrate : ℚ) (total_ticks : ℤ) (bb ba : ℚ)
    (hr : rounds ≠ []) (htr : 0 < tickrate) :
    (compute_alive_segments deaths rounds tickrate total_ticks bb ba).Pairwise
      (fun a b => a.start_tick < b.start_tick ∧ a.end_tick < b.start_tick) := by
  have hwf := compute_mem_wf deaths rounds tickrate total_ticks bb ba
  have hchain : List.Chain' (fun a b => a.end_tick < b.start_tick)
      (compute_alive_segments deaths rounds tickrate total_ticks bb ba) := by
    unfold compute_alive_segments
    split
    · simp
    · exact merge_chain _
  exact chain_gap_pairwise _ (fun s hs => (hwf s hs).1) hchain

/-- Witness for C1 at the spec's concrete one-round scenario. -/
theorem alive_segments_sorted_disjoint_witness :
    (compute_alive_segments []
      [{round_num := 1, prestart_tick := 0, prestart_time := 0,
        freeze_end_tick := some 640, end_tick := some 6400}] 64 10000 5 2).Pairwise
      (fun a b => a.start_tick < b.start_tick ∧ a.end_tick < b.start_tick) :=
  alive_segments_sorted_disjoint []
    [{round_num := 1, prestart_tick := 0, prestart_time := 0,
      freeze_end_tick := some 640, end_tick := some 6400}] 64 10000 5 2
    (by simp) (by norm_num)

/-! ## C2: segments have strict tick spans and exact times -/

/-- C2: every segment of `compute_alive_segments` (tick rate positive)
has `end_tick > start_tick` strictly, `start_time = start_tick /
tickrate` and `end_time = end_tick / tickrate` (exact in the rational
model). -/
theorem alive_segments_times_exact (deaths : List DeathEvent)
    (rounds : List RoundBoundary) (tickrate : ℚ) (total_ticks : ℤ) (bb ba : ℚ)
    (htr : 0 < tickrate) :
    ∀ s ∈ compute_alive_segments deaths rounds tickrate total_ticks bb ba,
      s.start_tick < s.end_tick ∧
      s.start_time = (s.start_tick : ℚ) / tickrate ∧
      s.end_time = (s.end_tick : ℚ) / tickrate :=
  fun s hs => compute_mem_wf deaths rounds tickrate total_ticks bb ba s hs

/-- Witness for C2 at the spec's concrete one-round scenario: the single
output segment is `[320, 6528]` with times `5s` and `102s`. -/
theorem alive_segments_times_exact_witness :
    (0 : ℚ) < 64 ∧
    ((320 : ℤ) < 6528 ∧ (5 : ℚ) = ((320 : ℤ) : ℚ) / 64 ∧
      (102 : ℚ) = ((6528 : ℤ) : ℚ) / 64) := by
  have e0 : roundSegment []
      [{round_num := 1, prestart_tick := 0, prestart_time := 0,
        freeze_end_tick := some 640, end_tick := some 6400}] 64 10000 5 2 0
      {round_num := 1, prestart_tick := 0, prestart_time := 0,
        freeze_end_tick := some 640, end_tick := some 6400} =
      some ⟨320, 6528, 5, 102, 1, "round_end"⟩ := by
    norm_num [roundSegment, segStartTick, roundSpanStart, roundSpanEnd, pyInt]
  have e2 : compute_alive_segments []
      [{round_num := 1, prestart_tick := 0, prestart_time := 0,
        freeze_end_tick := some 640, end_tick := some 6400}] 64 10000 5 2 =
      [⟨320, 6528, 5, 102, 1, "round_end"⟩] := by
    rw [compute_alive_segments, if_neg (by simp), computeRoundSegments_singleton, e0]
    simp [merge_alive_segments, mergeRun]
  refine ⟨by norm_num, ?_⟩
  exact alive_segments_times_exact []
    [{round_num := 1, prestart_tick := 0, prestart_time := 0,
      freeze_end_tick := some 640, end_tick := some 6400}] 64 10000 5 2
    (by norm_num) ⟨320, 6528, 5, 102, 1, "round_end"⟩
    (e2 ▸ List.mem_singleton_self _)

/-! ## C9: merging is idempotent -/

/-- C9: applying the merge step to a list that is already the output of
a merge yields the same list. -/
theorem merge_alive_segments_idempotent (l : List AliveSegment) :
    merge_alive_segments (merge_alive_segments l) = merge_alive_segments l := by
  have hsorted := merge_sorted l
  have hchain := merge_chain l
  cases hl : merge_alive_segments l with
  | nil => simp [merge_alive_segments]
  | cons h t =>
    rw [hl] at hsorted hchain
    have hple : (h :: t).Pairwise (fun a b => startLE a b) :=
      hsorted.imp (fun hab => by simpa [startLE] using hab)
    unfold merge_alive_segments
    rw [List.mergeSort_of_sorted hple]
    exact mergeRun_of_chain t h hchain

/-! ## C3: what the merge fusion keeps (corrected) -/

/-- Counterexample to C3 as stated: when the later segment is entirely
contained in the earlier one, `_merge_alive_segments` keeps the earlier
segment unchanged, so the fused result keeps the earlier segment's
`reason_ended` ("round_end") instead of adopting the later one's
("death") as the claim asserts. -/
theorem merge_contained_keeps_earlier_reason :
    (⟨10, 50, 10, 50, 2, "death"⟩ : AliveSegment).start_tick ≤
      (⟨0, 100, 0, 100, 1, "round_end"⟩ : AliveSegment).end_tick ∧
    merge_alive_segments
      [⟨0, 100, 0, 100, 1, "round_end"⟩, ⟨10, 50, 10, 50, 2, "death"⟩] =
      [⟨0, 100, 0, 100, 1, "round_end"⟩] ∧
    (⟨0, 100, 0, 100, 1, "round_end"⟩ : AliveSegment).reason_ended ≠ "death" := by
  refine ⟨by decide, ?_, by decide⟩
  have hp : ([⟨0, 100, 0, 100, 1, "round_end"⟩, ⟨10, 50, 10, 50, 2, "death"⟩] :
      List AliveSegment).Pairwise (fun x y => startLE x y) := by
    simp [List.pairwise_cons, startLE]
  unfold merge_alive_segments
  rw [List.mergeSort_of_sorted hp]
  show mergeRun _ [_] = _
  rw [mergeRun, if_pos (by decide), if_neg (by decide), mergeRun]

/-- C3 amended: when `current.start_tick ≤ previous.end_tick`, the two
segments fuse into one; the fused segment keeps the earliest
`start_tick`/`start_time` and the maximal `end_tick`, and adopts the
later segment's `reason_ended` only when the later segment extends past
the previous end (`previous.end_tick < current.end_tick`); when the
later segment is entirely contained, the previous segment is kept
unchanged, retaining its own `reason_ended`. -/
theorem merge_fuse_pair (a b : AliveSegment)
    (hab : a.start_tick ≤ b.start_tick) (hfuse : b.start_tick ≤ a.end_tick) :
    merge_alive_segments [a, b] =
      [if a.end_tick < b.end_tick then fuseSegments a b else a] := by
  have hp : ([a, b] : List AliveSegment).Pairwise (fun x y => startLE x y) := by
    simp [List.pairwise_cons, startLE, hab]
  unfold merge_alive_segments
  rw [List.mergeSort_of_sorted hp]
  show mergeRun a [b] = _
  rw [mergeRun, if_pos hfuse]
  split_ifs with h
  · rw [mergeRun]
  · rw [mergeRun]

/-- Witness for the amended C3 on an overlapping pair that extends. -/
theorem merge_fuse_pair_witness :
    merge_alive_segments
      [⟨0, 100, 0, 100, 1, "round_end"⟩, ⟨90, 150, 90, 150, 2, "death"⟩] =
      [if (⟨0, 100, 0, 100, 1, "round_end"⟩ : AliveSegment).end_tick <
          (⟨90, 150, 90, 150, 2, "death"⟩ : AliveSegment).end_tick then
        fuseSegments ⟨0, 100, 0, 100, 1, "round_end"⟩ ⟨90, 150, 90, 150, 2, "death"⟩
      else ⟨0, 100, 0, 100, 1, "round_end"⟩] :=
  merge_fuse_pair ⟨0, 100, 0, 100, 1, "round_end"⟩ ⟨90, 150, 90, 150, 2, "death"⟩
    (by decide) (by decide)

/-! ## C4: startup-time override (corrected) -/

/-- Counterexample to C4 as stated: the demo-duration resolution is not
bypassed by a startup-time override.  With every duration source
unusable, `postprocess_video` returns before the override is consulted
(no remap is produced), so the override does not determine the remap. -/
theorem postprocess_override_requires_duration :
    postprocessPlan none 64 0 [] [⟨0, 0, 0, -5, 1, "death"⟩] 100 (some 5) = none := by
  have h : resolveDemoDuration none 64 0 [] [⟨0, 0, 0, -5, 1, "death"⟩] = 0 := by
    norm_num [resolveDemoDuration]
  simp [postprocessPlan, h]

/-- C4 amended: when an override is supplied and some demo-duration
source resolves, the alignment uses exactly the override value,
unchanged (no clamping — it may even be negative), and the remap does
not depend on which source resolved; when no source resolves, trimming
is skipped even with an override. -/
theorem postprocess_override_unchanged (det : Option ℤ) (tr td : ℚ)
    (rounds : List RoundBoundary) (segs : List AliveSegment) (dur ov : ℚ)
    (h : resolveDemoDuration det tr td rounds segs ≠ 0) :
    postprocessPlan det tr td rounds segs dur (some ov) =
      some (toVideoTime segs ov dur) := by
  simp only [postprocessPlan]
  rw [if_neg h]
  rfl

/-- Witness for the amended C4 with a negative override. -/
theorem postprocess_override_unchanged_witness :
    postprocessPlan none 64 120 [] [⟨640, 6400, 10, 100, 1, "round_end"⟩] 150
        (some (-3)) =
      some (toVideoTime [⟨640, 6400, 10, 100, 1, "round_end"⟩] (-3) 150) :=
  postprocess_override_unchanged none 64 120 [] _ 150 (-3)
    (by norm_num [resolveDemoDuration])

/-! ## C5: demo-duration source priority -/

/-- If the console-log end-marker source is usable, it wins. -/
theorem resolve_src1 (det : Option ℤ) (tr td : ℚ) (rounds : List RoundBoundary)
    (segs : List AliveSegment) (h1 : durationFromEndMarker det tr ≠ 0) :
    resolveDemoDuration det tr td rounds segs = durationFromEndMarker det tr := by
  rcases det with _ | t
  · exact absurd rfl h1
  · simp only [durationFromEndMarker] at h1 ⊢
    simp only [resolveDemoDuration]
    split_ifs <;> simp_all

/-- Otherwise, if the header source is usable, it wins. -/
theorem resolve_src2 (det : Option ℤ) (tr td : ℚ) (rounds : List RoundBoundary)
    (segs : List AliveSegment) (h1 : durationFromEndMarker det tr = 0)
    (h2 : durationFromHeader td ≠ 0) :
    resolveDemoDuration det tr td rounds segs = durationFromHeader td := by
  have htd : 0 < td := by
    by_contra h
    simp [durationFromHeader, h] at h2
  rcases det with _ | t <;>
    simp only [durationFromEndMarker] at h1 <;>
    simp only [resolveDemoDuration, durationFromHeader] <;>
    split_ifs <;> simp_all

/-- Otherwise, if the last-round source is usable, it wins. -/
theorem resolve_src3 (det : Option ℤ) (tr td : ℚ) (rounds : List RoundBoundary)
    (segs : List AliveSegment) (h1 : durationFromEndMarker det tr = 0)
    (h2 : durationFromHeader td = 0) (h3 : durationFromLastRound rounds ≠ 0) :
    resolveDemoDuration det tr td rounds segs = durationFromLastRound rounds := by
  have htd : ¬ 0 < td := by
    intro h
    rw [durationFromHeader, if_pos h] at h2
    exact absurd h2.symm (ne_of_lt h)
  have hrounds : rounds ≠ [] := by
    intro h
    rw [h] at h3
    simp [durationFromLastRound] at h3
  rcases det with _ | t <;>
    simp only [durationFromEndMarker] at h1 <;>
    simp only [resolveDemoDuration, durationFromLastRound] at h3 ⊢ <;>
    rcases hfind : rounds.reverse.find? (fun r => r.end_tick.isSome) with _ | r0 <;>
    simp only [hfind] at h3 ⊢ <;>
    split_ifs <;> simp_all

/-- Otherwise the last-alive-segment source is used (possibly also
unusable, leaving the duration at zero). -/
theorem resolve_src4 (det : Option ℤ) (tr td : ℚ) (rounds : List RoundBoundary)
    (segs : List AliveSegment) (h1 : durationFromEndMarker det tr = 0)
    (h2 : durationFromHeader td = 0) (h3 : durationFromLastRound rounds = 0) :
    resolveDemoDuration det tr td rounds segs = durationFromLastSegment segs := by
  have htd : ¬ 0 < td := by
    intro h
    rw [durationFromHeader, if_pos h] at h2
    exact absurd h2.symm (ne_of_lt h)
  rcases det with _ | t <;>
    simp only [durationFromEndMarker] at h1 <;>
    simp only [resolveDemoDuration, durationFromLastRound] at h3 ⊢ <;>
    simp only [durationFromLastSegment] <;>
    rcases hfind : rounds.reverse.find? (fun r => r.end_tick.isSome) with _ | r0 <;>
    simp only [hfind] at h3 ⊢ <;>
    rcases hlast : segs.getLast? with _ | s0 <;>
    simp only [hlast] <;>
    split_ifs <;> simp_all [List.getLast?_eq_none_iff]

/-- C5: `demo_duration` is resolved by trying, in strict priority order,
the first source yielding a non-zero value: (1) the console-log demo-end
tick marker via the tick rate, (2) the header's declared total duration,
(3) the last ended round's end time plus 5 seconds, (4) the last alive
segment's end time plus 5 seconds; and if no source resolves, the
trimming plan is skipped (`none`) and the recording is kept untouched. -/
theorem demo_duration_priority (det : Option ℤ) (tr td : ℚ)
    (rounds : List RoundBoundary) (segs : List AliveSegment) (dur : ℚ)
    (ov : Option ℚ) :
    (durationFromEndMarker det tr ≠ 0 →
      resolveDemoDuration det tr td rounds segs = durationFromEndMarker det tr) ∧
    (durationFromEndMarker det tr = 0 → durationFromHeader td ≠ 0 →
      resolveDemoDuration det tr td rounds segs = durationFromHeader td) ∧
    (durationFromEndMarker det tr = 0 → durationFromHeader td = 0 →
      durationFromLastRound rounds ≠ 0 →
      resolveDemoDuration det tr td rounds segs = durationFromLastRound rounds) ∧
    (durationFromEndMarker det tr = 0 → durationFromHeader td = 0 →
      durationFromLastRound rounds = 0 →
      resolveDemoDuration det tr td rounds segs = durationFromLastSegment segs) ∧
    (resolveDemoDuration det tr td rounds segs = 0 →
      postprocessPlan det tr td rounds segs dur ov = none) :=
  ⟨resolve_src1 det tr td rounds segs,
   resolve_src2 det tr td rounds segs,
   resolve_src3 det tr td rounds segs,
   resolve_src4 det tr td rounds segs,
   fun h => by simp [postprocessPlan, h]⟩

/-- Witness for C5: with no end marker, a zero header duration and one
ended round, the third source resolves to the round end plus five
seconds. -/
theorem demo_duration_priority_witness :
    resolveDemoDuration none 64 0
      [{round_num := 1, prestart_tick := 0, prestart_time := 0,
        end_tick := some 6400, end_time := some 100}] [] = 105 := by
  have h := (demo_duration_priority none 64 0
    [{round_num := 1, prestart_tick := 0, prestart_time := 0,
      end_tick := some 6400, end_time := some 100}] [] 0 none).2.2.1
    rfl rfl (by norm_num [durationFromLastRound, List.find?])
  rw [h]
  norm_num [durationFromLastRound, List.find?]

/-! ## C6: a death exactly at the round-end tick ends the segment -/

/-- C6: the round span for the death lookup is inclusive on both ends:
a death whose tick equals the round span's end (with no earlier death
inside the span, deaths sorted by tick) ends that round's segment at
exactly that tick with `reason_ended = "death"`; the per-round loop
emits no other segment for that round. -/
theorem death_at_round_end_inclusive (deaths : List DeathEvent)
    (rounds : List RoundBoundary) (tickrate : ℚ) (total_ticks : ℤ) (bb ba : ℚ)
    (i : ℕ) (r : RoundBoundary) (d : DeathEvent)
    (hsorted : deaths.Pairwise (fun a b => a.tick ≤ b.tick))
    (hd : d ∈ deaths)
    (hend : d.tick = roundSpanEnd rounds total_ticks i r)
    (hstart : roundSpanStart r ≤ d.tick)
    (hfirst : ∀ d' ∈ deaths, d'.tick < d.tick → d'.tick < roundSpanStart r)
    (hemit : segStartTick tickrate bb r < d.tick) :
    roundSegment deaths rounds tickrate total_ticks bb ba i r =
      some ⟨segStartTick tickrate bb r, d.tick,
        (segStartTick tickrate bb r : ℚ) / tickrate, (d.tick : ℚ) / tickrate,
        r.round_num, "death"⟩ := by
  have hpd : decide (roundSpanStart r ≤ d.tick ∧
      d.tick ≤ roundSpanEnd rounds total_ticks i r) = true := by
    simp [hstart, hend.le]
  cases hfind : List.find? (fun d' => decide (roundSpanStart r ≤ d'.tick ∧
      d'.tick ≤ roundSpanEnd rounds total_ticks i r)) deaths with
  | none =>
    have := List.find?_eq_none.mp hfind d hd
    exact absurd hpd (by simpa using this)
  | some d'' =>
    have hmem := List.mem_of_find?_eq_some hfind
    have hp'' := List.find?_some hfind
    simp only [decide_eq_true_eq] at hp''
    have htick : d''.tick = d.tick := by
      have h2 : d''.tick ≤ d.tick := hend ▸ hp''.2
      rcases eq_or_lt_of_le h2 with h | h
      · exact h
      · exact absurd (hfirst d'' hmem h) (not_lt.mpr hp''.1)
    simp only [roundSegment]
    rw [hfind]
    dsimp only
    rw [htick, if_pos hemit]

/-- Witness for C6 at the spec's concrete scenario with the death moved
to the round-end tick itself. -/
theorem death_at_round_end_inclusive_witness :
    roundSegment [{tick := 6400, time_seconds := 100}]
      [{round_num := 1, prestart_tick := 0, prestart_time := 0,
        freeze_end_tick := some 640, end_tick := some 6400}] 64 10000 5 2 0
      {round_num := 1, prestart_tick := 0, prestart_time := 0,
        freeze_end_tick := some 640, end_tick := some 6400} =
      some ⟨320, 6400, 5, 100, 1, "death"⟩ := by
  have h := death_at_round_end_inclusive [{tick := 6400, time_seconds := 100}]
    [{round_num := 1, prestart_tick := 0, prestart_time := 0,
      freeze_end_tick := some 640, end_tick := some 6400}] 64 10000 5 2 0
    {round_num := 1, prestart_tick := 0, prestart_time := 0,
      freeze_end_tick := some 640, end_tick := some 6400}
    {tick := 6400, time_seconds := 100}
    (List.pairwise_singleton _ _)
    (List.mem_singleton_self _)
    (by decide) (by decide)
    (by
      intro d' hd' hlt
      rw [List.mem_singleton] at hd'
      subst hd'
      exact absurd hlt (lt_irrefl _))
    (by norm_num [segStartTick, pyInt])
  rw [h]
  norm_num [segStartTick, pyInt]

/-! ## C7: the demo-to-video remap stays in bounds -/

/-- C7: every segment emitted by the demo-time-to-video-time remap has
`video_start < video_end`, both endpoints inside `[0, video_duration]`,
and a span strictly greater than half a second (spans of at most half a
second are dropped). -/
theorem to_video_time_bounds (segs : List AliveSegment) (startup dur : ℚ) :
    ∀ p ∈ toVideoTime segs startup dur,
      0 ≤ p.1 ∧ p.1 ≤ dur ∧ 0 ≤ p.2 ∧ p.2 ≤ dur ∧
      p.1 + 1 / 2 < p.2 ∧ p.1 < p.2 := by
  intro p hp
  unfold toVideoTime at hp
  obtain ⟨seg, _, hsome⟩ := List.mem_filterMap.mp hp
  dsimp only at hsome
  split at hsome
  · rename_i hcond
    obtain rfl := Option.some.inj hsome
    have h1 : (0 : ℚ) ≤ max 0 (startup + seg.start_time) := le_max_left _ _
    have h2 : min dur (startup + seg.end_time) ≤ dur := min_le_left _ _
    refine ⟨h1, by linarith, by linarith, h2, hcond, by linarith⟩
  · cases hsome

/-- Witness for C7: the spec's concrete remap scenario keeps
`(40, 130)` inside `[0, 150]` with a span over half a second. -/
theorem to_video_time_bounds_witness :
    (0 : ℚ) ≤ 40 ∧ (40 : ℚ) ≤ 150 ∧ (0 : ℚ) ≤ 130 ∧ (130 : ℚ) ≤ 150 ∧
    (40 : ℚ) + 1 / 2 < 130 ∧ (40 : ℚ) < 130 := by
  have hmem : ((40 : ℚ), (130 : ℚ)) ∈
      toVideoTime [⟨640, 6400, 10, 100, 1, "round_end"⟩] 30 150 := by
    have : toVideoTime [⟨640, 6400, 10, 100, 1, "round_end"⟩] 30 150 =
        [((40 : ℚ), (130 : ℚ))] := by
      norm_num [toVideoTime, List.filterMap]
    rw [this]
    exact List.mem_singleton_self _
  exact to_video_time_bounds [⟨640, 6400, 10, 100, 1, "round_end"⟩] 30 150
    (40, 130) hmem

/-! ## C8: the comms-clock mapping -/

/-- C8: per segment, the comms mapping computes
`comms = time - round1_freeze_end_time + sync_point`; a segment whose
mapped end is at most 0 is dropped entirely; one with mapped start below
0 and mapped end above 0 is kept with its start clamped to 0; every kept
segment's mapped span is at most the original span; and
`compute_comms_segments` is exactly this map filtered over the list. -/
theorem compute_comms_segments_spec (r1 sync : ℚ) (seg : AliveSegment) :
    (commsMapSeg r1 sync seg = none ↔ seg.end_time - r1 + sync ≤ 0) ∧
    (seg.start_time - r1 + sync < 0 → 0 < seg.end_time - r1 + sync →
      commsMapSeg r1 sync seg = some (0, seg.end_time - r1 + sync)) ∧
    (∀ a b : ℚ, commsMapSeg r1 sync seg = some (a, b) →
      b - a ≤ seg.end_time - seg.start_time) ∧
    (∀ segs : List AliveSegment,
      compute_comms_segments segs r1 sync = segs.filterMap (commsMapSeg r1 sync)) := by
  refine ⟨?_, ?_, ?_, fun _ => rfl⟩
  · unfold commsMapSeg
    dsimp only
    split_ifs with h <;> simp [h]
  · intro hs he
    unfold commsMapSeg
    dsimp only
    rw [if_neg (not_le.mpr he)]
    rw [max_eq_left (le_of_lt hs)]
  · intro a b hab
    unfold commsMapSeg at hab
    dsimp only at hab
    split_ifs at hab with h
    obtain ⟨ha, hb⟩ := Prod.mk.inj (Option.some.inj hab)
    subst ha
    subst hb
    linarith [le_max_right (0 : ℚ) (seg.start_time - r1 + sync)]

/-- Witness for C8: a segment straddling comms time zero is clamped to
start at 0. -/
theorem compute_comms_segments_spec_witness :
    commsMapSeg 30 0 ⟨640, 6400, 20, 100, 1, "round_end"⟩ =
      some (0, (100 : ℚ) - 30 + 0) := by
  have h := (compute_comms_segments_spec 30 0
    ⟨640, 6400, 20, 100, 1, "round_end"⟩).2.1 (by norm_num) (by norm_num)
  exact h

/-! ## C10: the seek command never requests a negative tick -/

/-- C10: `compute_goto_tick` returns `max(0, target - offset)`, which is
never negative, for any calibrated offset (including offsets larger than
the target); the seek tick issued by `handle_death` goes through this
computation, so it is never negative either. -/
theorem compute_goto_tick_spec (segs : List AliveSegment) (idx : ℕ) (o t : ℤ) :
    compute_goto_tick t o = max 0 (t - o) ∧
    0 ≤ compute_goto_tick t o ∧
    (∀ tick : ℤ, handleDeathSeekTick segs idx o = some tick → 0 ≤ tick) := by
  refine ⟨rfl, le_max_left _ _, ?_⟩
  intro tick h
  simp only [handleDeathSeekTick] at h
  cases hg : segs.get? (idx + 1) with
  | none => rw [hg] at h; cases h
  | some seg =>
    rw [hg] at h
    obtain rfl := Option.some.inj h
    exact le_max_left _ _

/-- Witness for C10: with a calibrated offset larger than the next
segment's start tick, the issued seek tick is clamped to 0. -/
theorem compute_goto_tick_spec_witness :
    handleDeathSeekTick
      [⟨0, 5, 0, 5, 1, "death"⟩, ⟨100, 200, 1, 2, 2, "death"⟩] 0 150 = some 0 ∧
    (0 : ℤ) ≤ 0 :=
  ⟨by decide,
   (compute_goto_tick_spec
     [⟨0, 5, 0, 5, 1, "death"⟩, ⟨100, 200, 1, 2, 2, "death"⟩] 0 150 0).2.2 0
     (by decide)⟩
